import Mathlib

/-!
Verification development for the Glucoscillator glucose-data pipeline.

The TypeScript sources are embedded shallowly:
* JS `number` is modelled by `ℚ` (every numeric literal appearing in the
  sources is an exact decimal, and no claim depends on binary rounding);
* JS strings are modelled by `String` / `List Char`;
* a JS `Date` is modelled by its instant, counted in minutes (the source
  only compares instants with `getTime` and extracts local civil fields;
  the model is timezone-free, so local time coincides with the instant);
* JS `Map` and object rows are modelled by insertion-ordered association
  lists;
* functions that can produce no value return `Option`.
-/

/-! ### Characters and strings -/

/-- Model of the regex class `\d` (ASCII digits 0-9, code points 48-57). -/
def isDigitC (c : Char) : Bool := decide (48 ≤ c.toNat) && decide (c.toNat ≤ 57)

/-- Model of the regex separator class (dash 45, slash 47, dot 46). -/
def isSepC (c : Char) : Bool :=
  decide (c.toNat = 45) || decide (c.toNat = 47) || decide (c.toNat = 46)

/-- Model of the regex class `\s` and of the characters stripped by JS
`String.prototype.trim` (space, tab, LF, VT, FF, CR, NBSP, BOM; the further
exotic unicode space code points never occur in the inputs considered). -/
def jsSpaceC (c : Char) : Bool :=
  decide (c.toNat = 32) || decide (c.toNat = 9) || decide (c.toNat = 10) ||
  decide (c.toNat = 11) || decide (c.toNat = 12) || decide (c.toNat = 13) ||
  decide (c.toNat = 160) || decide (c.toNat = 65279)

/-- Model of JS `toLowerCase` on the ASCII range (the header names compared
in the source are ASCII). -/
def jsToLower (c : Char) : Char :=
  if 65 ≤ c.toNat ∧ c.toNat ≤ 90 then Char.ofNat (c.toNat + 32) else c

def lowerOf (cs : List Char) : List Char := cs.map jsToLower

def strLower (s : String) : List Char := lowerOf s.toList

def isPrefixList : List Char → List Char → Bool
  | [], _ => true
  | _ :: _, [] => false
  | a :: as, b :: bs => decide (a = b) && isPrefixList as bs

/-- Model of JS `String.prototype.includes`. -/
def containsSub : List Char → List Char → Bool
  | [], pat => pat.isEmpty
  | c :: rest, pat => isPrefixList pat (c :: rest) || containsSub rest pat

/-- Model of JS `String.prototype.trim`. -/
def trimChars (cs : List Char) : List Char :=
  ((cs.dropWhile jsSpaceC).reverse.dropWhile jsSpaceC).reverse

def strTrim (s : String) : String := String.mk (trimChars s.toList)

/-- Model of `split(/\r?\n/)`: a separator is `\n` optionally preceded by
`\r`; a lone `\r` is ordinary content.  A `\r` directly before a `\n` is
dropped here and the following `\n` performs the split, which is the same
cut as consuming the two-character separator at once. -/
def splitLinesAux : List Char → List Char → List (List Char)
  | [], acc => [acc.reverse]
  | c :: rest, acc =>
    if c = '\n' then acc.reverse :: splitLinesAux rest []
    else if c = '\r' ∧ rest.head? = some '\n' then splitLinesAux rest acc
    else splitLinesAux rest (c :: acc)

def splitLines (cs : List Char) : List (List Char) := splitLinesAux cs []

/-! ### JS numeric parsing -/

/-- Decimal value of a string of digit characters (the regex capture groups
fed to `parseInt` consist of digits only). -/
def parseDigitsNat (ds : List Char) : Nat :=
  ds.foldl (fun a c => a * 10 + (c.toNat - 48)) 0

def parseIntDigits (ds : List Char) : Int := (parseDigitsNat ds : Int)

/-- Model of JS `parseFloat`: skip leading whitespace, optional sign, longest
prefix of digits, optional fractional part, optional well-formed exponent;
no digits at all yields NaN, modelled as `none`.  (The non-finite literal
`Infinity` is not modelled; the sentinel values reaching `parseFloat` in this
program are filtered out before the call.) -/
def jsParseFloat (cs0 : List Char) : Option ℚ :=
  let cs1 := cs0.dropWhile jsSpaceC
  let sign : ℚ := match cs1 with
    | '-' :: _ => -1
    | _ => 1
  let cs2 : List Char := match cs1 with
    | '-' :: t => t
    | '+' :: t => t
    | _ => cs1
  let ip := cs2.takeWhile isDigitC
  let cs3 := cs2.dropWhile isDigitC
  let fp : List Char := match cs3 with
    | '.' :: t => t.takeWhile isDigitC
    | _ => []
  let cs4 : List Char := match cs3 with
    | '.' :: t => t.dropWhile isDigitC
    | _ => cs3
  if ip.isEmpty && fp.isEmpty then none
  else
    let mant : ℚ := (parseDigitsNat ip : ℚ) + (parseDigitsNat fp : ℚ) / ((10 : ℚ) ^ fp.length)
    let e : Int := match cs4 with
      | c :: t =>
        if c = 'e' ∨ c = 'E' then
          match t with
          | '-' :: t2 =>
            let ed := t2.takeWhile isDigitC
            if ed.isEmpty then 0 else -(parseIntDigits ed)
          | '+' :: t2 =>
            let ed := t2.takeWhile isDigitC
            if ed.isEmpty then 0 else parseIntDigits ed
          | _ =>
            let ed := t.takeWhile isDigitC
            if ed.isEmpty then 0 else parseIntDigits ed
        else 0
      | [] => 0
    some (sign * mant * (10 : ℚ) ^ e)

/-! ### JS Date model

A `Date` is represented by its instant in minutes.  `mkJsDate` models the
constructor `new Date(year, month, day, hour, minute)` including its
normalisation of out-of-range fields and the 1900 offset for years 0-99;
`civilFromDays`/`daysFromCivil` are the standard proleptic-Gregorian
conversions between a civil date and a day count. -/

/-- Days from the epoch 1970-01-01 of the civil date `(y, m, d)` with
`m` 1-based (and `d` possibly out of range: the result is affine in `d`,
exactly like the JS constructor's rollover). -/
def daysFromCivil (y m d : Int) : Int :=
  let y2 := if m ≤ 2 then y - 1 else y
  let era := y2.fdiv 400
  let yoe := y2 - era * 400
  let mp := if 2 < m then m - 3 else m + 9
  let doy := (153 * mp + 2).fdiv 5 + d - 1
  let doe := yoe * 365 + yoe.fdiv 4 - yoe.fdiv 100 + doy
  era * 146097 + doe - 719468

/-- Civil date `(year, month 1-based, day)` of a day count from 1970-01-01. -/
def civilFromDays (z0 : Int) : Int × Int × Int :=
  let z := z0 + 719468
  let era := z.fdiv 146097
  let doe := z - era * 146097
  let yoe := (doe - doe.fdiv 1460 + doe.fdiv 36524 - doe.fdiv 146096).fdiv 365
  let y := yoe + era * 400
  let doy := doe - (365 * yoe + yoe.fdiv 4 - yoe.fdiv 100)
  let mp := (5 * doy + 2).fdiv 153
  let d := doy - (153 * mp + 2).fdiv 5 + 1
  let m := if mp < 10 then mp + 3 else mp - 9
  (if m ≤ 2 then y + 1 else y, m, d)

structure JsDate where
  minutes : Int
deriving DecidableEq

/-- `new Date(year, month0, day, hour, minute)` with `month0` 0-based. -/
def mkJsDate (y m0 d hh mi : Int) : JsDate :=
  let y1 := if 0 ≤ y ∧ y ≤ 99 then y + 1900 else y
  let ym := y1 + m0.fdiv 12
  let mc := m0.emod 12 + 1
  ⟨(daysFromCivil ym mc 1 + (d - 1)) * 1440 + hh * 60 + mi⟩

/-! ### Data model (src/types.ts) -/

inductive GlucoseUnit
  | mgdL
  | mmolL
deriving DecidableEq

structure GlucoseReading where
  timestamp : JsDate
  value : ℚ
  recordType : Nat
deriving DecidableEq

structure DayStats where
  min : ℚ
  max : ℚ
  avg : ℚ
  timeInRange : ℚ
deriving DecidableEq

structure DailyGlucoseData where
  date : String
  readings : List GlucoseReading
  wavetable : Option (List ℚ)
  stats : DayStats
deriving DecidableEq

structure ParsedLibreViewData where
  days : List (String × DailyGlucoseData)
  unit : GlucoseUnit
  deviceName : String
  serialNumber : String
deriving DecidableEq

/-! ### CSV rows (src/parser/libreview.ts)

A `CSVRow` models a JS object with string keys: an association list in key
insertion order, a later assignment to an existing key overwriting its
value in place. -/

def CSVRow : Type := List (String × String)

instance : DecidableEq CSVRow := inferInstanceAs (DecidableEq (List (String × String)))

def rowGet (r : CSVRow) (k : String) : Option String :=
  (r.find? fun p => decide (p.1 = k)).map (·.2)

def hasKey (r : CSVRow) (k : String) : Bool := (rowGet r k).isSome

/-- JS truthiness of `row[k]`: the key is present and its value nonempty. -/
def truthyGet (r : CSVRow) (k : String) : Bool :=
  match rowGet r k with
  | some v => decide (¬ v = "")
  | none => false

def setKey : CSVRow → String → String → CSVRow
  | [], k, v => [(k, v)]
  | p :: rest, k, v =>
    if p.1 = k then (p.1, v) :: rest else p :: setKey rest k v

/-- `headers.forEach((header, idx) => row[header.trim()] = values[idx]?.trim() || '')` -/
def mkRow (headers vals : List String) : CSVRow :=
  (headers.zip vals).foldl (fun row hv => setKey row (strTrim hv.1) (strTrim hv.2)) []

def rowKeys (r : CSVRow) : List String := r.map (·.1)

/-! ### CSV line splitting and header detection -/

def parseCSVLineAux : List Char → List Char → Bool → List String
  | [], current, _ => [String.mk current.reverse]
  | c :: rest, current, inQuotes =>
    if c = '"' then parseCSVLineAux rest current (!inQuotes)
    else if c = ',' ∧ inQuotes = false then
      String.mk current.reverse :: parseCSVLineAux rest [] inQuotes
    else parseCSVLineAux rest (c :: current) inQuotes

def parseCSVLine (line : List Char) : List String := parseCSVLineAux line [] false

def isHeaderLine (l : List Char) : Bool :=
  containsSub (lowerOf l) ("device".toList) && containsSub (lowerOf l) ("timestamp".toList)

/-- The header-locating loop: the first of the first `min 10 lines.length`
lines whose lowercase text contains both markers; `0` when none does. -/
def findHeaderIndex (ls : List (List Char)) : Nat :=
  ((List.range (Nat.min 10 ls.length)).find? fun i => isHeaderLine (ls.getD i [])).getD 0

def detectUnit (headers : List String) : GlucoseUnit :=
  if containsSub (strLower (String.intercalate " " headers)) ("mmol/l".toList) then
    GlucoseUnit.mmolL
  else GlucoseUnit.mgdL

def findGlucoseColumn (row : CSVRow) : Option String :=
  let possibleColumns : List String :=
    ["Historic Glucose mg/dL", "Historic Glucose mmol/L", "Scan Glucose mg/dL",
     "Scan Glucose mmol/L", "Historic Glucose (mg/dL)", "Historic Glucose (mmol/L)"]
  match possibleColumns.find? fun c => truthyGet row c with
  | some c => some c
  | none =>
    (rowKeys row).find? fun k =>
      (containsSub (strLower k) ("historic glucose".toList) && truthyGet row k) ||
      (containsSub (strLower k) ("scan glucose".toList) && truthyGet row k)

def findTimestampColumn (row : CSVRow) : Option String :=
  let possibleColumns : List String := ["Device Timestamp", "Timestamp", "Time", "Date/Time"]
  match possibleColumns.find? fun c => hasKey row c with
  | some c => some c
  | none => (rowKeys row).find? fun k => containsSub (strLower k) ("timestamp".toList)

/-! ### Timestamp parsing

The source matches the regex
`(\d{1,4})[-\/.](\d{1,2})[-\/.](\d{1,4})\s+(\d{1,2}):(\d{2})(?::(\d{2}))?`
against the string (leftmost match, greedy quantifiers with backtracking)
and then chooses year/month/day from the first three capture groups.  The
matcher below implements exactly that search. -/

def takeExactDigits : Nat → List Char → Option (List Char × List Char)
  | 0, cs => some ([], cs)
  | _ + 1, [] => none
  | n + 1, c :: cs =>
    if isDigitC c then
      match takeExactDigits n cs with
      | some (ds, rest) => some (c :: ds, rest)
      | none => none
    else none

/-- Attempt a digit group of each length in `lens` (listed greedily, longest
first), continuing with `k`; backtrack to the next length when the group or
the continuation fails. -/
def tryLens {α : Type} (k : List Char → List Char → Option α) :
    List Nat → List Char → Option α
  | [], _ => none
  | len :: more, cs =>
    match takeExactDigits len cs with
    | some (ds, rest) =>
      match k ds rest with
      | some v => some v
      | none => tryLens k more cs
    | none => tryLens k more cs

/-- Greedy `\d{lo,hi}` with backtracking. -/
def tryDigits {α : Type} (lo hi : Nat) (cs : List Char)
    (k : List Char → List Char → Option α) : Option α :=
  tryLens k ((List.range' lo (hi + 1 - lo)).reverse) cs

def matchSepThen {α : Type} (cs : List Char) (k : List Char → Option α) : Option α :=
  match cs with
  | c :: rest => if isSepC c then k rest else none
  | [] => none

/-- `\s+` (greedy; the following regex atom is a digit, so no backtracking
into the space run is ever needed). -/
def matchSpacesThen {α : Type} (cs : List Char) (k : List Char → Option α) : Option α :=
  if (cs.takeWhile jsSpaceC).isEmpty then none else k (cs.dropWhile jsSpaceC)

/-- The optional `(?::(\d{2}))?` group: seconds when present. -/
def matchOptSeconds (cs : List Char) : Option (List Char) :=
  match cs with
  | c :: rest =>
    if c = ':' then
      match takeExactDigits 2 rest with
      | some (ds, _) => some ds
      | none => none
    else none
  | [] => none

structure TsGroups where
  g1 : List Char
  g2 : List Char
  g3 : List Char
  hh : List Char
  mm : List Char
  ss : Option (List Char)
deriving DecidableEq

/-- Match the timestamp pattern anchored at the head of `cs`. -/
def matchTsAt (cs : List Char) : Option TsGroups :=
  tryDigits 1 4 cs fun g1 r1 =>
  matchSepThen r1 fun r2 =>
  tryDigits 1 2 r2 fun g2 r3 =>
  matchSepThen r3 fun r4 =>
  tryDigits 1 4 r4 fun g3 r5 =>
  matchSpacesThen r5 fun r6 =>
  tryDigits 1 2 r6 fun hh r7 =>
  match r7 with
  | c :: r8 =>
    if c = ':' then
      match takeExactDigits 2 r8 with
      | some (mm, r9) => some ⟨g1, g2, g3, hh, mm, matchOptSeconds r9⟩
      | none => none
    else none
  | [] => none

/-- Leftmost match: try every start position from the left. -/
def findTsMatch : List Char → Option TsGroups
  | [] => none
  | c :: cs =>
    match matchTsAt (c :: cs) with
    | some g => some g
    | none => findTsMatch cs

/-- The `(year, month, day, hour, minute)` quintuple handed to `new Date`
by `parseTimestamp` (`month` 0-based, exactly as in the source). -/
structure DateFields where
  year : Int
  month : Int
  day : Int
  hour : Int
  minute : Int
deriving DecidableEq

def parseTimestampFields (s : String) : Option DateFields :=
  if s.isEmpty then none
  else
    match findTsMatch s.toList with
    | some g =>
      let hour := parseIntDigits g.hh
      let minute := parseIntDigits g.mm
      if g.g1.length = 4 then
        some ⟨parseIntDigits g.g1, parseIntDigits g.g2 - 1, parseIntDigits g.g3, hour, minute⟩
      else if g.g3.length = 4 then
        let year := parseIntDigits g.g3
        let n1 := parseIntDigits g.g1
        let n2 := parseIntDigits g.g2
        if 12 < n1 then some ⟨year, n2 - 1, n1, hour, minute⟩
        else if 12 < n2 then some ⟨year, n1 - 1, n2, hour, minute⟩
        else some ⟨year, n2 - 1, n1, hour, minute⟩
      else
        some ⟨2000 + parseIntDigits g.g1, parseIntDigits g.g2 - 1, parseIntDigits g.g3,
          hour, minute⟩
    | none => none

/- The source's final fallback (`new Date(str)` native parsing) is
platform-defined; the spec (§9) leaves its acceptance set
implementation-defined.  It is modelled as never succeeding; no claim
depends on it. -/
def parseTimestamp (s : String) : Option JsDate :=
  (parseTimestampFields s).map fun f => mkJsDate f.year f.month f.day f.hour f.minute

/-! ### Readings -/

def rowToReading (tsCol : Option String) (unit : GlucoseUnit) (row : CSVRow) :
    Option GlucoseReading :=
  match findGlucoseColumn row, tsCol with
  | some glucoseCol, some timestampCol =>
    let valueStr := (rowGet row glucoseCol).getD ""
    let timestampStr := (rowGet row timestampCol).getD ""
    if valueStr = "" ∨ valueStr = "Lo" ∨ valueStr = "Hi" then none
    else
      match jsParseFloat valueStr.toList with
      | none => none
      | some value =>
        -- `value * 18.0182`, the decimal literal taken exactly
        let normalizedValue := if unit = GlucoseUnit.mmolL then value * (180182 / 10000 : ℚ) else value
        match parseTimestamp timestampStr with
        | none => none
        | some timestamp =>
          some ⟨timestamp, normalizedValue,
            if containsSub (strLower glucoseCol) ("scan".toList) then 1 else 0⟩
  | _, _ => none

/-- The row loop of `parseGlucoseReadings`, before the final sort. -/
def extractReadings (rows : List CSVRow) (unit : GlucoseUnit) : List GlucoseReading :=
  match rows with
  | [] => []
  | r0 :: _ => rows.filterMap (rowToReading (findTimestampColumn r0) unit)

/-- Ascending order of the sort comparator `a.getTime() - b.getTime()`. -/
def timeLE (a b : GlucoseReading) : Prop :=
  a.timestamp.minutes ≤ b.timestamp.minutes

instance : DecidableRel timeLE :=
  fun a b => Int.decLe a.timestamp.minutes b.timestamp.minutes

instance : IsTotal GlucoseReading timeLE :=
  ⟨fun a b => Int.le_total a.timestamp.minutes b.timestamp.minutes⟩

instance : IsTrans GlucoseReading timeLE := ⟨fun _ _ _ h1 h2 => le_trans h1 h2⟩

/-- JS `Array.prototype.sort` is stable; a stable ascending sort is embedded
as insertion sort with the non-strict comparator. -/
def parseGlucoseReadings (rows : List CSVRow) (unit : GlucoseUnit) : List GlucoseReading :=
  List.insertionSort timeLE (extractReadings rows unit)

/-! ### Day aggregation -/

def listMin : List ℚ → ℚ
  | [] => 0
  | v :: vs => vs.foldl min v

def listMax : List ℚ → ℚ
  | [] => 0
  | v :: vs => vs.foldl max v

/- `Math.min()` of an empty spread is `+Infinity`; every use in the source
is guarded by a nonemptiness check, so the `[]` equations of `listMin` and
`listMax` are inert. -/

def calculateDayStats (readings : List GlucoseReading) : DayStats :=
  let values := readings.map (·.value)
  if values.length = 0 then ⟨0, 0, 0, 0⟩
  else
    let mn := listMin values
    let mx := listMax values
    let avg := values.sum / (values.length : ℚ)
    let inRange := (values.filter fun v => decide (70 ≤ v) && decide (v ≤ 180)).length
    ⟨mn, mx, avg, ((inRange : ℚ) / (values.length : ℚ)) * 100⟩

def formatDateKey (t : JsDate) : String :=
  let c := civilFromDays (t.minutes.fdiv 1440)
  toString c.1 ++ "-" ++
    (if (toString c.2.1).length < 2 then "0" ++ toString c.2.1 else toString c.2.1) ++ "-" ++
    (if (toString c.2.2).length < 2 then "0" ++ toString c.2.2 else toString c.2.2)

def readingDateKey (r : GlucoseReading) : String := formatDateKey r.timestamp

/- The map entry created on a day's first reading carries the sentinel stats
`{min: Infinity, max: -Infinity, avg: 0, timeInRange: 0}`; the infinities are
not values of `ℚ`, and the sentinel is dead: every created bucket receives at
least one reading and its stats are recomputed by `calculateDayStats` before
the map is returned.  The placeholder used here is `⟨0, 0, 0, 0⟩`. -/
def pushReading : List (String × DailyGlucoseData) → String → GlucoseReading →
    List (String × DailyGlucoseData)
  | [], k, r => [(k, ⟨k, [r], none, ⟨0, 0, 0, 0⟩⟩)]
  | (k1, d) :: rest, k, r =>
    if k1 = k then (k1, { d with readings := d.readings ++ [r] }) :: rest
    else (k1, d) :: pushReading rest k r

def groupReadingsByDay (readings : List GlucoseReading) : List (String × DailyGlucoseData) :=
  let raw := readings.foldl (fun acc r => pushReading acc (formatDateKey r.timestamp) r) []
  raw.map fun e => (e.1, { e.2 with stats := calculateDayStats e.2.readings })

/-! ### Top-level parse -/

def parseWithHeader (ls : List (List Char)) (headerIdx : Nat) : ParsedLibreViewData :=
  let headers := parseCSVLine (ls.getD headerIdx [])
  let rows : List CSVRow := (ls.drop (headerIdx + 1)).filterMap fun line =>
    let values := parseCSVLine line
    if values.length = headers.length then some (mkRow headers values) else none
  let unit := detectUnit headers
  let deviceName :=
    match rows.head? with
    | some r =>
      match rowGet r "Device" with
      | some v => if v = "" then "Unknown Device" else v
      | none => "Unknown Device"
    | none => "Unknown Device"
  let serialNumber :=
    match rows.head? with
    | some r =>
      match rowGet r "Serial Number" with
      | some v => v
      | none => ""
    | none => ""
  let readings := parseGlucoseReadings rows unit
  ⟨groupReadingsByDay readings, unit, deviceName, serialNumber⟩

def parseLibreViewCSV (csvContent : String) : ParsedLibreViewData :=
  let ls := splitLines (trimChars csvContent.toList)
  parseWithHeader ls (findHeaderIndex ls)

/-- Model of `days.get(dateKey)`. -/
def daysGet (p : ParsedLibreViewData) (k : String) : Option DailyGlucoseData :=
  (p.days.find? fun e => decide (e.1 = k)).map (·.2)

/-! ### Wavetable generation (src/synthesis/wavetable.ts) -/

def WAVETABLE_SIZE : Nat := 2048

def normalizeGlucoseValues (values : List ℚ) : List ℚ :=
  if values.length = 0 then []
  else
    let mn := listMin values
    let mx := listMax values
    let rng := mx - mn
    if rng = 0 then List.replicate values.length 0
    else values.map fun v => (v - mn) / rng * 2 - 1

/-- The body of the resampling loop at output index `i` (`Math.floor` on the
nonnegative `srcIndex` is the rational floor). -/
def sampleAt (values : List ℚ) (targetSize i : Nat) : ℚ :=
  let step : ℚ := (values.length : ℚ) / (targetSize : ℚ)
  let srcIndex : ℚ := (i : ℚ) * step
  let srcIndexFloor : Nat := (⌊srcIndex⌋).toNat
  let srcIndexCeil : Nat := Nat.min (srcIndexFloor + 1) (values.length - 1)
  let fraction : ℚ := srcIndex - (srcIndexFloor : ℚ)
  values.getD srcIndexFloor 0 * (1 - fraction) + values.getD srcIndexCeil 0 * fraction

def resampleToWavetableSize (values : List ℚ) (targetSize : Nat) : List ℚ :=
  if values.length = 0 then List.replicate targetSize 0
  else if values.length = targetSize then values
  else (List.range targetSize).map (sampleAt values targetSize)

/-- One smoothing pass; `(i - 1 + n) % n` over JS numbers equals
`(i + n - 1) % n` over `Nat` for `0 ≤ i < n`. -/
def smoothPass (w : List ℚ) : List ℚ :=
  let n := w.length
  (List.range n).map fun i =>
    let prev := w.getD ((i + n - 1) % n) 0
    let curr := w.getD i 0
    let next := w.getD ((i + 1) % n) 0
    prev * (1 / 4 : ℚ) + curr * (1 / 2 : ℚ) + next * (1 / 4 : ℚ)

def smoothWavetable : List ℚ → Nat → List ℚ
  | w, 0 => w
  | w, p + 1 => smoothWavetable (smoothPass w) p

def generateWavetable (dayData : DailyGlucoseData) : List ℚ :=
  if dayData.readings.length = 0 then List.replicate WAVETABLE_SIZE 0
  else
    let values := dayData.readings.map (·.value)
    let normalized := normalizeGlucoseValues values
    let wavetable := resampleToWavetableSize normalized WAVETABLE_SIZE
    smoothWavetable wavetable 2

/-! ### Glucose feature extraction (src/synthesis/effects-config.ts) -/

structure GlucoseStatsWithVolatility where
  min : ℚ
  max : ℚ
  avg : ℚ
  timeInRange : ℚ
  volatility : ℚ
deriving DecidableEq

/- The length-two-or-more arm of `combineGlucoseStats` reduces from the
sentinel accumulator `{min: Infinity, max: -Infinity, avg: 0, timeInRange: 0,
volatility: 0}`; over `ℚ` (which has no infinities) the same value is the
fold of min/max from the first element and the plain sums for the means. -/
def combineGlucoseStats : List GlucoseStatsWithVolatility → GlucoseStatsWithVolatility
  | [] => ⟨70, 180, 120, 70, 25⟩
  | [s] => s
  | s :: t =>
    { min := t.foldl (fun a x => min a x.min) s.min
      max := t.foldl (fun a x => max a x.max) s.max
      avg := ((s :: t).map (·.avg)).sum / ((s :: t).length : ℚ)
      timeInRange := ((s :: t).map (·.timeInRange)).sum / ((s :: t).length : ℚ)
      volatility := ((s :: t).map (·.volatility)).sum / ((s :: t).length : ℚ) }

structure VolThresholds where
  high : ℚ
  low : ℚ
deriving DecidableEq

structure AvgThresholds where
  high : ℚ
  low : ℚ
  target : ℚ
deriving DecidableEq

structure TirThresholds where
  good : ℚ
  poor : ℚ
deriving DecidableEq

structure GlucoseThresholds where
  volatility : VolThresholds
  average : AvgThresholds
  timeInRange : TirThresholds
deriving DecidableEq

def GLUCOSE_THRESHOLDS : GlucoseThresholds :=
  ⟨⟨40, 20⟩, ⟨150, 100, 120⟩, ⟨70, 50⟩⟩

inductive GlucoseStatType
  | volatility
  | average
  | timeInRange
deriving DecidableEq

def normalizeGlucoseStat (value : ℚ) (type : GlucoseStatType) : ℚ :=
  let th := GLUCOSE_THRESHOLDS
  match type with
  | GlucoseStatType.volatility =>
    min 1 (max 0 ((value - th.volatility.low) / (th.volatility.high - th.volatility.low)))
  | GlucoseStatType.average =>
    if value ≤ th.average.low then 0
    else if th.average.high ≤ value then 1
    else if value ≤ th.average.target then
      (1 / 2 : ℚ) * (value - th.average.low) / (th.average.target - th.average.low)
    else (1 / 2 : ℚ) + (1 / 2 : ℚ) * (value - th.average.target) / (th.average.high - th.average.target)
  | GlucoseStatType.timeInRange => min 1 (max 0 (value / 100))

/-! ### Proof-support definitions -/

/-- The readings list of the day bucket keyed `k` (empty when absent). -/
def bucketReadings (days : List (String × DailyGlucoseData)) (k : String) :
    List GlucoseReading :=
  ((days.find? fun e => decide (e.1 = k)).map fun e => e.2.readings).getD []

def keysNodup (days : List (String × DailyGlucoseData)) : Prop :=
  (days.map Prod.fst).Nodup

/-- The end-to-end scenario input of §8 of the spec. -/
def c1Input : String := "Device Timestamp,Historic Glucose mg/dL\n01-06-2024 10:00,120"

/-- The day record the scenario input parses to (the timestamp is
2024-06-01 10:00 counted in minutes from the epoch). -/
def c1Day : DailyGlucoseData :=
  ⟨"2024-06-01", [⟨⟨28620600⟩, 120, 0⟩], none, ⟨120, 120, 120, 100⟩⟩

/-- An input none of whose lines contains the header markers. -/
def c3Input : String := "foo,bar\n1,2"

/-! ## Wavetable shape lemmas -/

theorem length_normalizeGlucoseValues (values : List ℚ) :
    (normalizeGlucoseValues values).length = values.length := by
  simp only [normalizeGlucoseValues]
  split_ifs with h1 h2
  · simpa using h1.symm
  · simp
  · simp

theorem length_resampleToWavetableSize (values : List ℚ) (t : Nat) :
    (resampleToWavetableSize values t).length = t := by
  unfold resampleToWavetableSize
  split_ifs with h1 h2
  · simp
  · exact h2
  · simp

theorem length_smoothPass (w : List ℚ) : (smoothPass w).length = w.length := by
  simp [smoothPass]

theorem length_smoothWavetable (w : List ℚ) (p : Nat) :
    (smoothWavetable w p).length = w.length := by
  induction p generalizing w with
  | zero => rfl
  | succ p ih => rw [smoothWavetable, ih, length_smoothPass]

theorem length_generateWavetable (d : DailyGlucoseData) :
    (generateWavetable d).length = WAVETABLE_SIZE := by
  unfold generateWavetable
  split_ifs with h
  · simp
  · rw [length_smoothWavetable, length_resampleToWavetableSize]

/-! ## All-zero propagation lemmas -/

theorem getD_replicate_zero (n i : Nat) : (List.replicate n (0 : ℚ)).getD i 0 = 0 := by
  induction n generalizing i with
  | zero => simp
  | succ n ih =>
    cases i with
    | zero => simp [List.replicate_succ]
    | succ i => simp [List.replicate_succ, ih]

theorem sampleAt_replicate_zero (n t i : Nat) :
    sampleAt (List.replicate n 0) t i = 0 := by
  unfold sampleAt
  simp [getD_replicate_zero]

theorem resample_replicate_zero (n t : Nat) :
    resampleToWavetableSize (List.replicate n 0) t = List.replicate t 0 := by
  unfold resampleToWavetableSize
  split_ifs with h1 h2
  · rfl
  · rw [List.length_replicate] at h2
    rw [h2]
  · refine List.eq_replicate_iff.2 ⟨by simp, ?_⟩
    intro b hb
    simp only [List.mem_map, List.mem_range] at hb
    obtain ⟨i, _, rfl⟩ := hb
    exact sampleAt_replicate_zero n t i

theorem smoothPass_replicate_zero (n : Nat) :
    smoothPass (List.replicate n 0) = List.replicate n 0 := by
  unfold smoothPass
  refine List.eq_replicate_iff.2 ⟨by simp, ?_⟩
  intro b hb
  simp only [List.length_replicate, List.mem_map, List.mem_range] at hb
  obtain ⟨i, _, rfl⟩ := hb
  simp [getD_replicate_zero]

theorem smoothWavetable_replicate_zero (n p : Nat) :
    smoothWavetable (List.replicate n 0) p = List.replicate n 0 := by
  induction p with
  | zero => rfl
  | succ p ih => rw [smoothWavetable, smoothPass_replicate_zero]; exact ih

/-! ## Constant-day lemmas -/

theorem foldl_min_const (c : ℚ) (l : List ℚ) (h : ∀ v ∈ l, v = c) : l.foldl min c = c := by
  induction l with
  | nil => rfl
  | cons a t ih =>
    rw [List.foldl_cons, h a (List.mem_cons_self a t), min_self]
    exact ih fun v hv => h v (List.mem_cons_of_mem a hv)

theorem foldl_max_const (c : ℚ) (l : List ℚ) (h : ∀ v ∈ l, v = c) : l.foldl max c = c := by
  induction l with
  | nil => rfl
  | cons a t ih =>
    rw [List.foldl_cons, h a (List.mem_cons_self a t), max_self]
    exact ih fun v hv => h v (List.mem_cons_of_mem a hv)

theorem listMin_const (c : ℚ) (l : List ℚ) (hne : l ≠ []) (h : ∀ v ∈ l, v = c) :
    listMin l = c := by
  cases l with
  | nil => exact absurd rfl hne
  | cons v vs =>
    rw [listMin, h v (List.mem_cons_self v vs)]
    exact foldl_min_const c vs fun x hx => h x (List.mem_cons_of_mem v hx)

theorem listMax_const (c : ℚ) (l : List ℚ) (hne : l ≠ []) (h : ∀ v ∈ l, v = c) :
    listMax l = c := by
  cases l with
  | nil => exact absurd rfl hne
  | cons v vs =>
    rw [listMax, h v (List.mem_cons_self v vs)]
    exact foldl_max_const c vs fun x hx => h x (List.mem_cons_of_mem v hx)

theorem normalizeGlucoseValues_const (l : List ℚ) (c : ℚ) (h : ∀ v ∈ l, v = c) :
    normalizeGlucoseValues l = List.replicate l.length 0 := by
  simp only [normalizeGlucoseValues]
  split_ifs with h1 h2
  · have : l = [] := List.length_eq_zero.1 h1
    simp [this]
  · rfl
  · exfalso
    have hne : l ≠ [] := by
      intro hl
      rw [hl] at h1
      exact h1 rfl
    exact h2 (by rw [listMin_const c l hne h, listMax_const c l hne h]; ring)

theorem generateWavetable_const (d : DailyGlucoseData) (c : ℚ)
    (h : ∀ r ∈ d.readings, r.value = c) :
    generateWavetable d = List.replicate WAVETABLE_SIZE 0 := by
  simp only [generateWavetable]
  split_ifs with h0
  · rfl
  · have hc : ∀ v ∈ d.readings.map (fun r => r.value), v = c := by
      intro v hv
      obtain ⟨r, hr, rfl⟩ := List.mem_map.1 hv
      exact h r hr
    rw [normalizeGlucoseValues_const _ c hc, List.length_map,
      resample_replicate_zero, smoothWavetable_replicate_zero]

/-- Claim C4: for every day record, regardless of how many readings it has
(zero, one, or many, including exactly 2048), `generateWavetable` returns a
wavetable of length exactly 2048. -/
theorem claim_C4_wavetable_length (d : DailyGlucoseData) :
    (generateWavetable d).length = 2048 :=
  length_generateWavetable d

/-- Claim C5: for every day whose readings are all equal (including a
single-reading day, and vacuously a day with zero readings),
`generateWavetable` returns the all-zero 2048-sample wavetable: the guarded
range-zero branch is taken instead of dividing by the day's zero range. -/
theorem claim_C5_flat_day_zero_wavetable (d : DailyGlucoseData) (c : ℚ)
    (h : ∀ r ∈ d.readings, r.value = c) :
    generateWavetable d = List.replicate 2048 0 :=
  generateWavetable_const d c h

theorem claim_C5_witness :
    (∀ r ∈ ([⟨⟨0⟩, 100, 0⟩, ⟨⟨1⟩, 100, 0⟩] : List GlucoseReading), r.value = 100) ∧
    generateWavetable ⟨"2024-01-01", [⟨⟨0⟩, 100, 0⟩, ⟨⟨1⟩, 100, 0⟩], none, ⟨0, 0, 0, 0⟩⟩
      = List.replicate 2048 0 :=
  ⟨by decide, claim_C5_flat_day_zero_wavetable
    ⟨"2024-01-01", [⟨⟨0⟩, 100, 0⟩, ⟨⟨1⟩, 100, 0⟩], none, ⟨0, 0, 0, 0⟩⟩ 100 (by decide)⟩

/-! ## Fold bounds for combineGlucoseStats -/

theorem foldl_min_le_all (f : GlucoseStatsWithVolatility → ℚ)
    (l : List GlucoseStatsWithVolatility) (a : ℚ) :
    l.foldl (fun acc x => min acc (f x)) a ≤ a ∧
      ∀ s ∈ l, l.foldl (fun acc x => min acc (f x)) a ≤ f s := by
  induction l generalizing a with
  | nil => simp
  | cons b t ih =>
    simp only [List.foldl_cons]
    obtain ⟨h1, h2⟩ := ih (min a (f b))
    refine ⟨le_trans h1 (min_le_left _ _), ?_⟩
    intro s hs
    rcases List.mem_cons.1 hs with rfl | hs2
    · exact le_trans h1 (min_le_right _ _)
    · exact h2 s hs2

theorem foldl_min_attained (f : GlucoseStatsWithVolatility → ℚ)
    (l : List GlucoseStatsWithVolatility) (a : ℚ) :
    l.foldl (fun acc x => min acc (f x)) a = a ∨
      ∃ s ∈ l, l.foldl (fun acc x => min acc (f x)) a = f s := by
  induction l generalizing a with
  | nil => exact Or.inl rfl
  | cons b t ih =>
    simp only [List.foldl_cons]
    rcases ih (min a (f b)) with h | ⟨s, hs, h⟩
    · rcases min_cases a (f b) with ⟨he, _⟩ | ⟨he, _⟩
      · exact Or.inl (by rw [h, he])
      · exact Or.inr ⟨b, List.mem_cons_self b t, by rw [h, he]⟩
    · exact Or.inr ⟨s, List.mem_cons_of_mem b hs, h⟩

theorem foldl_max_ge_all (f : GlucoseStatsWithVolatility → ℚ)
    (l : List GlucoseStatsWithVolatility) (a : ℚ) :
    a ≤ l.foldl (fun acc x => max acc (f x)) a ∧
      ∀ s ∈ l, f s ≤ l.foldl (fun acc x => max acc (f x)) a := by
  induction l generalizing a with
  | nil => simp
  | cons b t ih =>
    simp only [List.foldl_cons]
    obtain ⟨h1, h2⟩ := ih (max a (f b))
    refine ⟨le_trans (le_max_left _ _) h1, ?_⟩
    intro s hs
    rcases List.mem_cons.1 hs with rfl | hs2
    · exact le_trans (le_max_right _ _) h1
    · exact h2 s hs2

theorem foldl_max_attained (f : GlucoseStatsWithVolatility → ℚ)
    (l : List GlucoseStatsWithVolatility) (a : ℚ) :
    l.foldl (fun acc x => max acc (f x)) a = a ∨
      ∃ s ∈ l, l.foldl (fun acc x => max acc (f x)) a = f s := by
  induction l generalizing a with
  | nil => exact Or.inl rfl
  | cons b t ih =>
    simp only [List.foldl_cons]
    rcases ih (max a (f b)) with h | ⟨s, hs, h⟩
    · rcases max_cases a (f b) with ⟨he, _⟩ | ⟨he, _⟩
      · exact Or.inl (by rw [h, he])
      · exact Or.inr ⟨b, List.mem_cons_self b t, by rw [h, he]⟩
    · exact Or.inr ⟨s, List.mem_cons_of_mem b hs, h⟩

/-- Claim C6: `combineGlucoseStats` on the empty list returns exactly the
neutral default `{min 70, max 180, avg 120, timeInRange 70, volatility 25}`;
on a one-element list it returns that element unchanged; on two or more
descriptors it returns the minimum of the mins, the maximum of the maxes and
the arithmetic means of avg, timeInRange and volatility. -/
theorem claim_C6_combine_stats :
    combineGlucoseStats [] = ⟨70, 180, 120, 70, 25⟩
    ∧ (∀ s, combineGlucoseStats [s] = s)
    ∧ ∀ l : List GlucoseStatsWithVolatility, 2 ≤ l.length →
        (∀ s ∈ l, (combineGlucoseStats l).min ≤ s.min ∧ s.max ≤ (combineGlucoseStats l).max)
        ∧ (∃ s ∈ l, (combineGlucoseStats l).min = s.min)
        ∧ (∃ s ∈ l, (combineGlucoseStats l).max = s.max)
        ∧ (combineGlucoseStats l).avg = ((l.map fun s => s.avg).sum) / (l.length : ℚ)
        ∧ (combineGlucoseStats l).timeInRange
            = ((l.map fun s => s.timeInRange).sum) / (l.length : ℚ)
        ∧ (combineGlucoseStats l).volatility
            = ((l.map fun s => s.volatility).sum) / (l.length : ℚ) := by
  refine ⟨rfl, fun s => rfl, ?_⟩
  intro l hl
  rcases l with _ | ⟨a, _ | ⟨b, t⟩⟩
  · simp at hl
  · simp at hl
  · refine ⟨?_, ?_, ?_, rfl, rfl, rfl⟩
    · intro s hs
      constructor
      · rcases List.mem_cons.1 hs with rfl | hs2
        · exact (foldl_min_le_all (fun x => x.min) (b :: t) s.min).1
        · exact (foldl_min_le_all (fun x => x.min) (b :: t) a.min).2 s hs2
      · rcases List.mem_cons.1 hs with rfl | hs2
        · exact (foldl_max_ge_all (fun x => x.max) (b :: t) s.max).1
        · exact (foldl_max_ge_all (fun x => x.max) (b :: t) a.max).2 s hs2
    · rcases foldl_min_attained (fun x => x.min) (b :: t) a.min with h | ⟨s, hs, h⟩
      · exact ⟨a, List.mem_cons_self a (b :: t), h⟩
      · exact ⟨s, List.mem_cons_of_mem a hs, h⟩
    · rcases foldl_max_attained (fun x => x.max) (b :: t) a.max with h | ⟨s, hs, h⟩
      · exact ⟨a, List.mem_cons_self a (b :: t), h⟩
      · exact ⟨s, List.mem_cons_of_mem a hs, h⟩

theorem claim_C6_witness :
    (combineGlucoseStats
        [(⟨100, 160, 130, 80, 30⟩ : GlucoseStatsWithVolatility), ⟨90, 190, 110, 60, 20⟩]).avg
      = 120 :=
  Eq.trans
    ((claim_C6_combine_stats.2.2
      [(⟨100, 160, 130, 80, 30⟩ : GlucoseStatsWithVolatility), ⟨90, 190, 110, 60, 20⟩]
      (by decide)).2.2.2.1)
    (by norm_num)

/-- Claim C7: the three normalization curves: volatility is
`(v - 20)/(40 - 20)` clamped to `[0,1]`; average maps `(-∞,100]` to 0,
`[150,∞)` to 1, `(100,120]` linearly onto `(0, 1/2]` and `(120,150)` linearly
onto `(1/2, 1)`; time-in-range is `v/100` clamped to `[0,1]`. -/
theorem claim_C7_normalize_stat (v : ℚ) :
    normalizeGlucoseStat v GlucoseStatType.volatility = min 1 (max 0 ((v - 20) / (40 - 20)))
    ∧ (v ≤ 100 → normalizeGlucoseStat v GlucoseStatType.average = 0)
    ∧ (150 ≤ v → normalizeGlucoseStat v GlucoseStatType.average = 1)
    ∧ (100 < v → v ≤ 120 →
        normalizeGlucoseStat v GlucoseStatType.average = (v - 100) / (120 - 100) * (1 / 2))
    ∧ (120 < v → v < 150 →
        normalizeGlucoseStat v GlucoseStatType.average = 1 / 2 + (v - 120) / (150 - 120) * (1 / 2))
    ∧ normalizeGlucoseStat v GlucoseStatType.timeInRange = min 1 (max 0 (v / 100)) := by
  refine ⟨rfl, ?_, ?_, ?_, ?_, rfl⟩
  · intro h
    simp only [normalizeGlucoseStat, GLUCOSE_THRESHOLDS]
    rw [if_pos h]
  · intro h
    simp only [normalizeGlucoseStat, GLUCOSE_THRESHOLDS]
    rw [if_neg (by linarith), if_pos h]
  · intro h1 h2
    simp only [normalizeGlucoseStat, GLUCOSE_THRESHOLDS]
    rw [if_neg (by linarith), if_neg (by linarith), if_pos h2]
    ring
  · intro h1 h2
    simp only [normalizeGlucoseStat, GLUCOSE_THRESHOLDS]
    rw [if_neg (by linarith), if_neg (by linarith), if_neg (by linarith)]
    ring

theorem claim_C7_witness :
    normalizeGlucoseStat 110 GlucoseStatType.average = (110 - 100) / (120 - 100) * (1 / 2) :=
  (claim_C7_normalize_stat 110).2.2.2.1 (by norm_num) (by norm_num)

/-- Claim C8: a reading counts toward `timeInRange` exactly when its value
`v` satisfies `70 ≤ v ≤ 180`, both bounds inclusive: a day with readings
exactly 70 and 180 has timeInRange 100, readings of 69.9 or 180.1 are not
counted, the computed percentage is the in-range count over the total times
100, and a nonempty day scores 100 exactly when every reading is in range. -/
theorem claim_C8_time_in_range :
    (calculateDayStats [⟨⟨0⟩, 70, 0⟩, ⟨⟨0⟩, 180, 0⟩]).timeInRange = 100
    ∧ (calculateDayStats [⟨⟨0⟩, 70, 0⟩, ⟨⟨0⟩, 180, 0⟩, ⟨⟨0⟩, 699/10, 0⟩]).timeInRange = 200 / 3
    ∧ (calculateDayStats [⟨⟨0⟩, 70, 0⟩, ⟨⟨0⟩, 180, 0⟩, ⟨⟨0⟩, 1801/10, 0⟩]).timeInRange = 200 / 3
    ∧ (∀ rs : List GlucoseReading,
        (calculateDayStats rs).timeInRange
          = ((((rs.map fun r => r.value).filter
                fun v => decide (70 ≤ v) && decide (v ≤ 180)).length : ℚ)
              / (rs.length : ℚ)) * 100)
    ∧ ∀ rs : List GlucoseReading, rs ≠ [] →
        ((calculateDayStats rs).timeInRange = 100 ↔ ∀ r ∈ rs, 70 ≤ r.value ∧ r.value ≤ 180) := by
  refine ⟨?_, ?_, ?_, ?_, ?_⟩
  · norm_num [calculateDayStats, List.filter_cons]
  · norm_num [calculateDayStats, List.filter_cons]
  · norm_num [calculateDayStats, List.filter_cons]
  · intro rs
    simp only [calculateDayStats, List.length_map]
    split_ifs with h
    · rw [h]
      simp
    · rfl
  · intro rs hne
    have hlen : rs.length ≠ 0 := fun h => hne (List.length_eq_zero.1 h)
    have hlenq : (rs.length : ℚ) ≠ 0 := Nat.cast_ne_zero.2 hlen
    simp only [calculateDayStats, List.length_map]
    rw [if_neg hlen]
    constructor
    · intro h r hr
      have hq : ((((rs.map fun r => r.value).filter
          fun v => decide (70 ≤ v) && decide (v ≤ 180)).length : ℚ)) = (rs.length : ℚ) := by
        field_simp at h
        linarith
      have hcnt : (((rs.map fun r => r.value).filter
          fun v => decide (70 ≤ v) && decide (v ≤ 180)).length)
          = (rs.map fun r => r.value).length := by
        rw [List.length_map]
        exact_mod_cast hq
      have hall := List.filter_length_eq_length.1 hcnt
      have hv := hall r.value (List.mem_map.2 ⟨r, hr, rfl⟩)
      simpa using hv
    · intro hall
      have hb : ∀ v ∈ rs.map fun r => r.value,
          (fun v => decide (70 ≤ v) && decide (v ≤ 180)) v := by
        intro v hv
        obtain ⟨r, hr, rfl⟩ := List.mem_map.1 hv
        simpa using hall r hr
      rw [List.filter_length_eq_length.2 hb, List.length_map]
      field_simp

theorem claim_C8_witness :
    (calculateDayStats [⟨⟨0⟩, 70, 0⟩, ⟨⟨0⟩, 180, 0⟩]).timeInRange = 100
      ↔ ∀ r ∈ ([⟨⟨0⟩, 70, 0⟩, ⟨⟨0⟩, 180, 0⟩] : List GlucoseReading),
          70 ≤ r.value ∧ r.value ≤ 180 :=
  claim_C8_time_in_range.2.2.2.2 [⟨⟨0⟩, 70, 0⟩, ⟨⟨0⟩, 180, 0⟩] (by simp)

/-! ## Stability of the reading sort

A stable sort is characterised by: for every key value, the subsequence of
elements carrying that key is unchanged. -/

theorem filter_timeEq_orderedInsert (a : GlucoseReading) (l : List GlucoseReading) (c : Int) :
    (List.orderedInsert timeLE a l).filter (fun x => decide (x.timestamp.minutes = c))
      = if a.timestamp.minutes = c
          then a :: l.filter (fun x => decide (x.timestamp.minutes = c))
          else l.filter fun x => decide (x.timestamp.minutes = c) := by
  induction l with
  | nil =>
    by_cases ha : a.timestamp.minutes = c <;>
      simp [List.orderedInsert, List.filter_cons, ha]
  | cons b t ih =>
    simp only [List.orderedInsert]
    by_cases hr : timeLE a b
    · rw [if_pos hr]
      by_cases ha : a.timestamp.minutes = c <;> simp [List.filter_cons, ha]
    · rw [if_neg hr]
      have hlt : b.timestamp.minutes < a.timestamp.minutes := by
        simpa [timeLE, not_le] using hr
      by_cases ha : a.timestamp.minutes = c
      · have hb : ¬ b.timestamp.minutes = c := by omega
        simp [List.filter_cons, ha, hb, ih]
      · by_cases hb : b.timestamp.minutes = c <;> simp [List.filter_cons, ha, hb, ih]

theorem filter_timeEq_insertionSort (l : List GlucoseReading) (c : Int) :
    (List.insertionSort timeLE l).filter (fun x => decide (x.timestamp.minutes = c))
      = l.filter fun x => decide (x.timestamp.minutes = c) := by
  induction l with
  | nil => rfl
  | cons a t ih =>
    simp only [List.insertionSort]
    rw [filter_timeEq_orderedInsert]
    by_cases ha : a.timestamp.minutes = c <;> simp [List.filter_cons, ha, ih]

/-! ## Day buckets are key-filtered sublists -/

theorem bucketReadings_cons (k1 : String) (d : DailyGlucoseData)
    (rest : List (String × DailyGlucoseData)) (k2 : String) :
    bucketReadings ((k1, d) :: rest) k2
      = if k1 = k2 then d.readings else bucketReadings rest k2 := by
  by_cases h : k1 = k2 <;> simp [bucketReadings, List.find?_cons, h]

theorem bucketReadings_pushReading (days : List (String × DailyGlucoseData))
    (k k2 : String) (r : GlucoseReading) :
    bucketReadings (pushReading days k r) k2
      = if k = k2 then bucketReadings days k2 ++ [r] else bucketReadings days k2 := by
  induction days with
  | nil =>
    by_cases hk : k = k2 <;> simp [bucketReadings, pushReading, hk]
  | cons e rest ih =>
    obtain ⟨k1, d⟩ := e
    by_cases h1 : k1 = k
    · subst h1
      have hpush : pushReading ((k1, d) :: rest) k1 r
          = (k1, { d with readings := d.readings ++ [r] }) :: rest := by
        simp [pushReading]
      rw [hpush]
      by_cases hk : k1 = k2 <;> simp [bucketReadings_cons, hk]
    · have hpush : pushReading ((k1, d) :: rest) k r = (k1, d) :: pushReading rest k r := by
        simp [pushReading, h1]
      rw [hpush]
      by_cases hk2 : k1 = k2
      · subst hk2
        have hk : ¬ k = k1 := fun h => h1 h.symm
        simp [bucketReadings_cons, hk]
      · simp [bucketReadings_cons, hk2, ih]

theorem bucketReadings_foldl (rs : List GlucoseReading)
    (acc : List (String × DailyGlucoseData)) (k : String) :
    bucketReadings (rs.foldl (fun a r => pushReading a (formatDateKey r.timestamp) r) acc) k
      = bucketReadings acc k ++ rs.filter fun r => decide (formatDateKey r.timestamp = k) := by
  induction rs generalizing acc with
  | nil => simp
  | cons r rs ih =>
    simp only [List.foldl_cons]
    rw [ih, bucketReadings_pushReading]
    by_cases hk : formatDateKey r.timestamp = k
    · simp [List.filter_cons, hk]
    · simp [List.filter_cons, hk]

theorem keys_pushReading (days : List (String × DailyGlucoseData)) (k : String)
    (r : GlucoseReading) :
    (pushReading days k r).map Prod.fst
      = if k ∈ days.map Prod.fst then days.map Prod.fst else days.map Prod.fst ++ [k] := by
  induction days with
  | nil => simp [pushReading]
  | cons e rest ih =>
    obtain ⟨k1, d⟩ := e
    by_cases h1 : k1 = k
    · subst h1
      have hpush : pushReading ((k1, d) :: rest) k1 r
          = (k1, { d with readings := d.readings ++ [r] }) :: rest := by
        simp [pushReading]
      rw [hpush]
      simp
    · have hpush : pushReading ((k1, d) :: rest) k r = (k1, d) :: pushReading rest k r := by
        simp [pushReading, h1]
      rw [hpush]
      have hne : ¬ k = k1 := fun h => h1 h.symm
      by_cases hmem : k ∈ rest.map Prod.fst <;>
        simp [List.map_cons, ih, hmem, hne]

theorem keysNodup_pushReading (days : List (String × DailyGlucoseData)) (k : String)
    (r : GlucoseReading) (h : keysNodup days) : keysNodup (pushReading days k r) := by
  unfold keysNodup at h ⊢
  rw [keys_pushReading]
  by_cases hmem : k ∈ days.map Prod.fst
  · rw [if_pos hmem]
    exact h
  · rw [if_neg hmem]
    refine List.Nodup.append h (List.nodup_singleton k) ?_
    intro x hx hk
    rw [List.mem_singleton] at hk
    subst hk
    exact hmem hx

theorem keysNodup_foldl (rs : List GlucoseReading)
    (acc : List (String × DailyGlucoseData)) (h : keysNodup acc) :
    keysNodup (rs.foldl (fun a r => pushReading a (formatDateKey r.timestamp) r) acc) := by
  induction rs generalizing acc with
  | nil => exact h
  | cons r rs ih =>
    simp only [List.foldl_cons]
    exact ih _ (keysNodup_pushReading acc _ r h)

theorem find?_eq_of_mem (days : List (String × DailyGlucoseData))
    (e : String × DailyGlucoseData) (hn : keysNodup days) (he : e ∈ days) :
    days.find? (fun x => decide (x.1 = e.1)) = some e := by
  induction days with
  | nil => exact absurd he (List.not_mem_nil e)
  | cons a rest ih =>
    rcases List.mem_cons.1 he with rfl | hmem
    · simp [List.find?_cons]
    · have hne : ¬ a.1 = e.1 := by
        intro hk
        have h1 : a.1 ∈ rest.map Prod.fst := hk ▸ List.mem_map.2 ⟨e, hmem, rfl⟩
        have h2 : a.1 ∉ rest.map Prod.fst := (List.nodup_cons.1 hn).1
        exact h2 h1
      have hrest : keysNodup rest := (List.nodup_cons.1 hn).2
      simpa [List.find?_cons, hne] using ih hrest hmem

theorem readings_eq_of_mem (days : List (String × DailyGlucoseData))
    (e : String × DailyGlucoseData) (hn : keysNodup days) (he : e ∈ days) :
    e.2.readings = bucketReadings days e.1 := by
  rw [bucketReadings, find?_eq_of_mem days e hn he]
  rfl

/-- Claim C9: the full reading sequence produced by `parseGlucoseReadings`
is sorted ascending by timestamp; the sort is stable (for every timestamp
value, the subsequence of readings with that timestamp equals the one of the
unsorted extraction); consequently the readings of every day bucket produced
by `groupReadingsByDay` are non-decreasing by timestamp. -/
theorem claim_C9_sorted_stable (rows : List CSVRow) (u : GlucoseUnit) :
    List.Sorted timeLE (parseGlucoseReadings rows u)
    ∧ (∀ c : Int,
        (parseGlucoseReadings rows u).filter (fun r => decide (r.timestamp.minutes = c))
          = (extractReadings rows u).filter fun r => decide (r.timestamp.minutes = c))
    ∧ ∀ e ∈ groupReadingsByDay (parseGlucoseReadings rows u),
        List.Sorted timeLE e.2.readings := by
  refine ⟨List.sorted_insertionSort timeLE _,
    fun c => filter_timeEq_insertionSort _ c, ?_⟩
  intro e he
  simp only [groupReadingsByDay] at he
  obtain ⟨e0, he0, heq⟩ := List.mem_map.1 he
  have hread : e.2.readings = e0.2.readings := by rw [← heq]
  have hn : keysNodup ((parseGlucoseReadings rows u).foldl
      (fun a r => pushReading a (formatDateKey r.timestamp) r) []) :=
    keysNodup_foldl _ [] (by simp [keysNodup])
  have hfil := readings_eq_of_mem _ e0 hn he0
  rw [bucketReadings_foldl] at hfil
  rw [hread, hfil]
  simp only [bucketReadings, List.find?_nil, Option.map_none', Option.getD_none,
    List.nil_append]
  exact List.Pairwise.sublist (List.filter_sublist _) (List.sorted_insertionSort timeLE _)

/-! ## Character class facts -/

theorem isSep_not_digit (c : Char) (h : isSepC c = true) : isDigitC c = false := by
  simp only [isSepC, Bool.or_eq_true, decide_eq_true_eq] at h
  cases hB : isDigitC c
  · rfl
  · exfalso
    simp only [isDigitC, Bool.and_eq_true, decide_eq_true_eq] at hB
    omega

theorem digit_not_space (c : Char) (h : isDigitC c = true) : jsSpaceC c = false := by
  simp only [isDigitC, Bool.and_eq_true, decide_eq_true_eq] at h
  simp only [jsSpaceC, Bool.or_eq_false_iff, decide_eq_false_iff_not]
  omega

theorem jsSpaceC_space : jsSpaceC ' ' = true := rfl

theorem colon_not_digit : isDigitC ':' = false := rfl

/-! ## The regex matcher on well-formed timestamp shapes -/

/-- `rest` cannot extend a digit group: it is empty or starts with
a non-digit. -/
def digitBoundary (rest : List Char) : Prop :=
  rest = [] ∨ ∃ c2 cs2, rest = c2 :: cs2 ∧ isDigitC c2 = false

theorem takeExactDigits_exact (ds rest : List Char)
    (hd : ∀ c ∈ ds, isDigitC c = true) :
    takeExactDigits ds.length (ds ++ rest) = some (ds, rest) := by
  induction ds with
  | nil => rfl
  | cons c t ih =>
    have hc := hd c (List.mem_cons_self c t)
    have ht := ih fun x hx => hd x (List.mem_cons_of_mem c hx)
    simp [List.length_cons, takeExactDigits, hc, ht]

theorem takeExactDigits_long (ds rest : List Char) (n : Nat)
    (hd : ∀ c ∈ ds, isDigitC c = true) (hb : digitBoundary rest)
    (h : ds.length < n) :
    takeExactDigits n (ds ++ rest) = none := by
  induction ds generalizing n with
  | nil =>
    obtain ⟨m, rfl⟩ : ∃ m, n = m + 1 := ⟨n - 1, by omega⟩
    rcases hb with rfl | ⟨c2, cs2, rfl, hc2⟩
    · rfl
    · simp [takeExactDigits, hc2]
  | cons c t ih =>
    obtain ⟨m, rfl⟩ : ∃ m, n = m + 1 := ⟨n - 1, by omega⟩
    have hc := hd c (List.mem_cons_self c t)
    have ht := ih m (fun x hx => hd x (List.mem_cons_of_mem c hx)) (by
      simp only [List.length_cons] at h
      omega)
    simp [takeExactDigits, hc, ht]

theorem tryLens_eq {α : Type} (k : List Char → List Char → Option α)
    (L1 L2 : List Nat) (ds rest : List Char) (v : α)
    (hd : ∀ c ∈ ds, isDigitC c = true) (hb : digitBoundary rest)
    (hk : k ds rest = some v)
    (hL1 : ∀ n ∈ L1, ds.length < n) :
    tryLens k (L1 ++ ds.length :: L2) (ds ++ rest) = some v := by
  induction L1 with
  | nil =>
    simp [tryLens, takeExactDigits_exact ds rest hd, hk]
  | cons n L1 ih =>
    have hnone := takeExactDigits_long ds rest n hd hb (hL1 n (List.mem_cons_self n L1))
    simp only [List.cons_append, tryLens, hnone]
    exact ih fun x hx => hL1 x (List.mem_cons_of_mem n hx)

theorem tryDigits_spec {α : Type} (lo hi : Nat) (k : List Char → List Char → Option α)
    (ds rest : List Char) (v : α)
    (hd : ∀ c ∈ ds, isDigitC c = true) (hb : digitBoundary rest)
    (h1 : lo ≤ ds.length) (h2 : ds.length ≤ hi)
    (hk : k ds rest = some v) :
    tryDigits lo hi (ds ++ rest) k = some v := by
  unfold tryDigits
  have h3 : lo + (ds.length - lo) = ds.length := by omega
  have h4 : hi + 1 - lo = (hi + 1 - ds.length) + (ds.length - lo) := by omega
  have h5 : hi + 1 - ds.length = (hi - ds.length) + 1 := by omega
  have hsplit : (List.range' lo (hi + 1 - lo)).reverse
      = (List.range' (ds.length + 1) (hi - ds.length)).reverse
        ++ ds.length :: (List.range' lo (ds.length - lo)).reverse := by
    calc (List.range' lo (hi + 1 - lo)).reverse
        = (List.range' lo ((hi + 1 - ds.length) + (ds.length - lo))).reverse := by rw [← h4]
      _ = (List.range' lo (ds.length - lo)
            ++ List.range' (lo + (ds.length - lo)) (hi + 1 - ds.length)).reverse := by
            rw [List.range'_append_1]
      _ = (List.range' lo (ds.length - lo)
            ++ (ds.length :: List.range' (ds.length + 1) (hi - ds.length))).reverse := by
            rw [h3, h5, List.range'_succ]
      _ = (List.range' (ds.length + 1) (hi - ds.length)).reverse
            ++ ds.length :: (List.range' lo (ds.length - lo)).reverse := by
            simp
  rw [hsplit]
  refine tryLens_eq k _ _ ds rest v hd hb hk ?_
  intro n hn
  rw [List.mem_reverse] at hn
  rw [List.mem_range'] at hn
  obtain ⟨i, hi2, rfl⟩ := hn
  omega

theorem matchSpacesThen_one {α : Type} (k : List Char → Option α) (cs : List Char)
    (h : cs = [] ∨ ∃ c2 cs2, cs = c2 :: cs2 ∧ jsSpaceC c2 = false) :
    matchSpacesThen (' ' :: cs) k = k cs := by
  rcases h with rfl | ⟨c2, cs2, rfl, hc⟩
  · simp [matchSpacesThen, List.takeWhile_cons, List.dropWhile_cons, jsSpaceC_space]
  · simp [matchSpacesThen, List.takeWhile_cons, List.dropWhile_cons, jsSpaceC_space, hc]

theorem matchTsAt_spec
    (dA dB dC dH dM : List Char) (s1 s2 : Char) (tl : List Char)
    (hA : ∀ c ∈ dA, isDigitC c = true) (hA1 : 1 ≤ dA.length) (hA2 : dA.length ≤ 4)
    (hB : ∀ c ∈ dB, isDigitC c = true) (hB1 : 1 ≤ dB.length) (hB2 : dB.length ≤ 2)
    (hC : ∀ c ∈ dC, isDigitC c = true) (hC1 : 1 ≤ dC.length) (hC2 : dC.length ≤ 4)
    (hH : ∀ c ∈ dH, isDigitC c = true) (hH1 : 1 ≤ dH.length) (hH2 : dH.length ≤ 2)
    (hM : ∀ c ∈ dM, isDigitC c = true) (hM2 : dM.length = 2)
    (hs1 : isSepC s1 = true) (hs2 : isSepC s2 = true) :
    matchTsAt (dA ++ s1 :: (dB ++ s2 :: (dC ++ ' ' :: (dH ++ ':' :: (dM ++ tl)))))
      = some ⟨dA, dB, dC, dH, dM, matchOptSeconds tl⟩ := by
  unfold matchTsAt
  refine tryDigits_spec 1 4 _ dA _ _ hA
    (Or.inr ⟨s1, _, rfl, isSep_not_digit s1 hs1⟩) hA1 hA2 ?_
  simp only [matchSepThen, hs1, if_true]
  refine tryDigits_spec 1 2 _ dB _ _ hB
    (Or.inr ⟨s2, _, rfl, isSep_not_digit s2 hs2⟩) hB1 hB2 ?_
  simp only [matchSepThen, hs2, if_true]
  refine tryDigits_spec 1 4 _ dC _ _ hC
    (Or.inr ⟨' ', _, rfl, rfl⟩) hC1 hC2 ?_
  have hHb : dH ++ ':' :: (dM ++ tl) = [] ∨
      ∃ c2 cs2, dH ++ ':' :: (dM ++ tl) = c2 :: cs2 ∧ jsSpaceC c2 = false := by
    rcases dH with _ | ⟨h0, t0⟩
    · simp at hH1
    · exact Or.inr ⟨h0, t0 ++ ':' :: (dM ++ tl), rfl,
        digit_not_space h0 (hH h0 (List.mem_cons_self h0 t0))⟩
  rw [matchSpacesThen_one _ _ hHb]
  refine tryDigits_spec 1 2 _ dH _ _ hH
    (Or.inr ⟨':', _, rfl, colon_not_digit⟩) hH1 hH2 ?_
  simp only
  rw [if_true]
  rw [show (2 : Nat) = dM.length from hM2.symm, takeExactDigits_exact dM tl hM]

theorem findTsMatch_head (cs : List Char) (g : TsGroups)
    (h : matchTsAt cs = some g) (hne : cs ≠ []) :
    findTsMatch cs = some g := by
  cases cs with
  | nil => exact absurd rfl hne
  | cons c rest => simp [findTsMatch, h]

/-- Claim C2: for every timestamp string of the shape
`A sep B sep C␣hh:mm` or `A sep B sep C␣hh:mm:ss` (groups of digits, each
separator a dash, slash or dot) with `A` and `B` of at most two digits and
`C` of exactly four digits, `parseTimestamp` chooses the date fields as:
`A > 12` forces day `A`, month `B`; otherwise `B > 12` forces month `A`,
day `B`; otherwise it defaults day-first (day `A`, month `B`).  `month` is
the 0-based month index handed to the `Date` constructor, so calendar month
`B` is stored as `B - 1`.  In particular `"05-03-2024 08:30"` resolves to
day 5, month 3; `"13-03-2024 08:30"` to day 13, month 3; and
`"03-13-2024 08:30"` to month 3, day 13. -/
theorem claim_C2_date_disambiguation :
    (∀ (dA dB dC dH dM : List Char) (s1 s2 : Char) (tl : List Char),
      (∀ c ∈ dA, isDigitC c = true) → 1 ≤ dA.length → dA.length ≤ 2 →
      (∀ c ∈ dB, isDigitC c = true) → 1 ≤ dB.length → dB.length ≤ 2 →
      (∀ c ∈ dC, isDigitC c = true) → dC.length = 4 →
      (∀ c ∈ dH, isDigitC c = true) → 1 ≤ dH.length → dH.length ≤ 2 →
      (∀ c ∈ dM, isDigitC c = true) → dM.length = 2 →
      isSepC s1 = true → isSepC s2 = true →
      (tl = [] ∨ ∃ dS, (∀ c ∈ dS, isDigitC c = true) ∧ dS.length = 2 ∧ tl = ':' :: dS) →
      ∃ f : DateFields,
        parseTimestampFields
            (String.mk (dA ++ s1 :: (dB ++ s2 :: (dC ++ ' ' :: (dH ++ ':' :: (dM ++ tl))))))
          = some f
        ∧ f.year = parseIntDigits dC
        ∧ (if 12 < parseIntDigits dA then
              f.day = parseIntDigits dA ∧ f.month = parseIntDigits dB - 1
            else if 12 < parseIntDigits dB then
              f.month = parseIntDigits dA - 1 ∧ f.day = parseIntDigits dB
            else f.day = parseIntDigits dA ∧ f.month = parseIntDigits dB - 1))
    ∧ (parseTimestampFields "05-03-2024 08:30").map (fun f => (f.year, f.month, f.day))
        = some (2024, 2, 5)
    ∧ (parseTimestampFields "13-03-2024 08:30").map (fun f => (f.year, f.month, f.day))
        = some (2024, 2, 13)
    ∧ (parseTimestampFields "03-13-2024 08:30").map (fun f => (f.year, f.month, f.day))
        = some (2024, 2, 13) := by
  refine ⟨?_, by decide, by decide, by decide⟩
  intro dA dB dC dH dM s1 s2 tl hA hA1 hA2 hB hB1 hB2 hC hC4 hH hH1 hH2 hM hM2 hs1 hs2 htl
  have hmatch := matchTsAt_spec dA dB dC dH dM s1 s2 tl hA hA1 (by omega) hB hB1 hB2
    hC (by omega) (by omega) hH hH1 hH2 hM hM2 hs1 hs2
  have hne : dA ++ s1 :: (dB ++ s2 :: (dC ++ ' ' :: (dH ++ ':' :: (dM ++ tl)))) ≠ [] := by
    rcases dA with _ | ⟨a0, t0⟩
    · simp at hA1
    · simp
  have hfind := findTsMatch_head _ _ hmatch hne
  have hempty : (String.mk (dA ++ s1 :: (dB ++ s2 :: (dC ++ ' ' :: (dH ++ ':' :: (dM ++ tl)))))).isEmpty
      = false := by
    rw [Bool.eq_false_iff]
    intro hemp
    rw [String.isEmpty_iff] at hemp
    exact hne (congrArg String.data hemp)
  simp only [parseTimestampFields, hempty, Bool.false_eq_true, if_false]
  rw [show (String.mk (dA ++ s1 :: (dB ++ s2 :: (dC ++ ' ' :: (dH ++ ':' :: (dM ++ tl)))))).toList
      = dA ++ s1 :: (dB ++ s2 :: (dC ++ ' ' :: (dH ++ ':' :: (dM ++ tl)))) from rfl]
  rw [hfind]
  simp only
  rw [if_neg (by omega : ¬ dA.length = 4), if_pos hC4]
  by_cases h1 : 12 < parseIntDigits dA
  · rw [if_pos h1]
    exact ⟨_, rfl, rfl, by rw [if_pos h1]; exact ⟨rfl, rfl⟩⟩
  · rw [if_neg h1]
    by_cases h2 : 12 < parseIntDigits dB
    · rw [if_pos h2]
      exact ⟨_, rfl, rfl, by rw [if_neg h1, if_pos h2]; exact ⟨rfl, rfl⟩⟩
    · rw [if_neg h2]
      exact ⟨_, rfl, rfl, by rw [if_neg h1, if_neg h2]; exact ⟨rfl, rfl⟩⟩

theorem claim_C2_witness :
    ∃ f : DateFields,
      parseTimestampFields
          (String.mk (['0', '5'] ++ '-' :: (['0', '3'] ++ '-' ::
            (['2', '0', '2', '4'] ++ ' ' :: (['0', '8'] ++ ':' :: (['3', '0'] ++ []))))))
        = some f
      ∧ f.year = parseIntDigits ['2', '0', '2', '4']
      ∧ (if 12 < parseIntDigits ['0', '5'] then
            f.day = parseIntDigits ['0', '5'] ∧ f.month = parseIntDigits ['0', '3'] - 1
          else if 12 < parseIntDigits ['0', '3'] then
            f.month = parseIntDigits ['0', '5'] - 1 ∧ f.day = parseIntDigits ['0', '3']
          else f.day = parseIntDigits ['0', '5'] ∧ f.month = parseIntDigits ['0', '3'] - 1) :=
  claim_C2_date_disambiguation.1 ['0', '5'] ['0', '3'] ['2', '0', '2', '4'] ['0', '8']
    ['3', '0'] '-' '-' [] (by decide) (by decide) (by decide) (by decide) (by decide)
    (by decide) (by decide) (by decide) (by decide) (by decide) (by decide) (by decide)
    (by decide) (by decide) (by decide) (Or.inl rfl)

theorem claim_C9_witness :
    List.Sorted timeLE [(⟨⟨28620600⟩, 120, 0⟩ : GlucoseReading)] :=
  (claim_C9_sorted_stable
      [[("Device Timestamp", "01-06-2024 10:00"), ("Historic Glucose mg/dL", "120")]]
      GlucoseUnit.mgdL).2.2
    ("2024-06-01", ⟨"2024-06-01", [⟨⟨28620600⟩, 120, 0⟩], none, ⟨120, 120, 120, 100⟩⟩)
    (by simp +decide [parseGlucoseReadings, extractReadings, rowToReading, findGlucoseColumn,
      findTimestampColumn, rowGet, hasKey, truthyGet, rowKeys, strLower, lowerOf, jsToLower,
      containsSub, isPrefixList, jsParseFloat, parseDigitsNat, parseIntDigits, isDigitC,
      jsSpaceC, isSepC, takeExactDigits, tryLens, tryDigits, matchSepThen, matchSpacesThen,
      matchOptSeconds, matchTsAt, findTsMatch, parseTimestampFields, parseTimestamp, mkJsDate,
      daysFromCivil, civilFromDays, groupReadingsByDay, pushReading, calculateDayStats,
      listMin, listMax, formatDateKey, timeLE, List.insertionSort, List.orderedInsert,
      List.dropWhile_cons, List.takeWhile_cons, List.foldl_cons])

/-! ## Claim C3: missing header does not produce a failure

The header-locating loop leaves `headerIndex = 0` when no line matches, and
parsing proceeds with the first line as the header; `parseLibreViewCSV`
never reports a failure. -/

/-- Claim C3 counterexample: on an input none of whose lines contains both
header markers, ingestion does not report a failure: it returns an ordinary
dataset (empty days, default device fields), indistinguishable from a
successful parse of an export with no data. -/
theorem claim_C3_counterexample :
    (∀ i < Nat.min 10 (splitLines (trimChars c3Input.toList)).length,
      isHeaderLine ((splitLines (trimChars c3Input.toList)).getD i []) = false)
    ∧ parseLibreViewCSV c3Input
        = { days := [], unit := GlucoseUnit.mgdL, deviceName := "Unknown Device",
            serialNumber := "" } := by
  constructor
  · decide
  · decide

/-- Claim C3 (amended): if none of the first 10 lines contains both "device"
and "timestamp" (case-insensitive), `parseLibreViewCSV` does not fail: the
header index defaults to 0, the first line is treated as the header, and the
dataset parsed under that assumption is returned. -/
theorem claim_C3_amended (csv : String)
    (h : ∀ i < Nat.min 10 (splitLines (trimChars csv.toList)).length,
      isHeaderLine ((splitLines (trimChars csv.toList)).getD i []) = false) :
    findHeaderIndex (splitLines (trimChars csv.toList)) = 0
    ∧ parseLibreViewCSV csv = parseWithHeader (splitLines (trimChars csv.toList)) 0 := by
  have hidx : findHeaderIndex (splitLines (trimChars csv.toList)) = 0 := by
    unfold findHeaderIndex
    rw [List.find?_eq_none.2 ?_]
    · rfl
    · intro i hi
      rw [List.mem_range] at hi
      rw [h i hi]
      simp
  refine ⟨hidx, ?_⟩
  show parseWithHeader _ (findHeaderIndex _) = _
  rw [hidx]

theorem claim_C3_witness :
    findHeaderIndex (splitLines (trimChars c3Input.toList)) = 0
    ∧ parseLibreViewCSV c3Input = parseWithHeader (splitLines (trimChars c3Input.toList)) 0 :=
  claim_C3_amended c3Input (by decide)

/-! ## Resampling is monotone on sorted input -/

theorem sorted_getD_mono (values : List ℚ) (hs : List.Sorted (· ≤ ·) values)
    (a b : Nat) (hab : a ≤ b) (hb : b < values.length) :
    values.getD a 0 ≤ values.getD b 0 := by
  rcases eq_or_lt_of_le hab with rfl | hlt
  · exact le_refl _
  · have ha : a < values.length := lt_trans hlt hb
    rw [List.getD_eq_getElem values 0 ha, List.getD_eq_getElem values 0 hb]
    exact @List.Sorted.rel_get_of_lt _ _ _ hs ⟨a, ha⟩ ⟨b, hb⟩ (Fin.mk_lt_mk.2 hlt)

theorem sampleAt_mono (values : List ℚ) (t i j : Nat)
    (hs : List.Sorted (· ≤ ·) values) (hn : values.length ≠ 0)
    (hij : i < j) (hj : j < t) :
    sampleAt values t i ≤ sampleAt values t j := by
  have hn0 : 0 < values.length := Nat.pos_of_ne_zero hn
  have ht0 : 0 < t := lt_of_le_of_lt (Nat.zero_le j) hj
  have htq : (0:ℚ) < (t:ℚ) := by exact_mod_cast ht0
  have hnq : (0:ℚ) < (values.length:ℚ) := by exact_mod_cast hn0
  have hstep : (0:ℚ) < (values.length : ℚ) / (t : ℚ) := div_pos hnq htq
  simp only [sampleAt]
  set st : ℚ := (values.length : ℚ) / (t : ℚ) with hst
  have hsi_nonneg : (0:ℚ) ≤ (i:ℚ) * st := by positivity
  have hsj_nonneg : (0:ℚ) ≤ (j:ℚ) * st := by positivity
  have hsij : (i:ℚ) * st ≤ (j:ℚ) * st := by
    apply mul_le_mul_of_nonneg_right _ (le_of_lt hstep)
    exact_mod_cast le_of_lt hij
  have hsj_lt : (j:ℚ) * st < (values.length : ℚ) := by
    have h1 : (j:ℚ) < (t:ℚ) := by exact_mod_cast hj
    calc (j:ℚ) * st < (t:ℚ) * st := mul_lt_mul_of_pos_right h1 hstep
      _ = (values.length:ℚ) := by rw [hst]; field_simp
  have hfi_nonneg : 0 ≤ ⌊(i:ℚ) * st⌋ := Int.floor_nonneg.2 hsi_nonneg
  have hfj_nonneg : 0 ≤ ⌊(j:ℚ) * st⌋ := Int.floor_nonneg.2 hsj_nonneg
  have hfij : ⌊(i:ℚ) * st⌋ ≤ ⌊(j:ℚ) * st⌋ := Int.floor_le_floor hsij
  have hfj_lt : ⌊(j:ℚ) * st⌋ < (values.length : ℤ) := by
    have h2 : ((⌊(j:ℚ) * st⌋ : ℤ) : ℚ) < (values.length : ℚ) :=
      lt_of_le_of_lt (Int.floor_le _) hsj_lt
    exact_mod_cast h2
  have hFiq : ((⌊(i:ℚ) * st⌋.toNat : ℚ)) = ((⌊(i:ℚ) * st⌋ : ℤ) : ℚ) := by
    exact_mod_cast Int.toNat_of_nonneg hfi_nonneg
  have hFjq : ((⌊(j:ℚ) * st⌋.toNat : ℚ)) = ((⌊(j:ℚ) * st⌋ : ℤ) : ℚ) := by
    exact_mod_cast Int.toNat_of_nonneg hfj_nonneg
  have hfr_i0 : (0:ℚ) ≤ (i:ℚ) * st - (⌊(i:ℚ) * st⌋.toNat : ℚ) := by
    rw [hFiq]
    have := Int.floor_le ((i:ℚ) * st)
    linarith
  have hfr_i1 : (i:ℚ) * st - (⌊(i:ℚ) * st⌋.toNat : ℚ) < 1 := by
    rw [hFiq]
    have := Int.lt_floor_add_one ((i:ℚ) * st)
    linarith
  have hfr_j0 : (0:ℚ) ≤ (j:ℚ) * st - (⌊(j:ℚ) * st⌋.toNat : ℚ) := by
    rw [hFjq]
    have := Int.floor_le ((j:ℚ) * st)
    linarith
  have hfr_j1 : (j:ℚ) * st - (⌊(j:ℚ) * st⌋.toNat : ℚ) < 1 := by
    rw [hFjq]
    have := Int.lt_floor_add_one ((j:ℚ) * st)
    linarith
  have hFj_le : ⌊(j:ℚ) * st⌋.toNat ≤ values.length - 1 := by omega
  have hFi_le : ⌊(i:ℚ) * st⌋.toNat ≤ values.length - 1 := by omega
  have hCi_le : Nat.min (⌊(i:ℚ) * st⌋.toNat + 1) (values.length - 1) ≤ values.length - 1 :=
    Nat.min_le_right _ _
  have hn1 : values.length - 1 < values.length := by omega
  have hgFiCi : values.getD (⌊(i:ℚ) * st⌋.toNat) 0
      ≤ values.getD (Nat.min (⌊(i:ℚ) * st⌋.toNat + 1) (values.length - 1)) 0 := by
    apply sorted_getD_mono values hs _ _ _ (lt_of_le_of_lt hCi_le hn1)
    exact Nat.le_min.2 ⟨Nat.le_succ _, hFi_le⟩
  have hgFjCj : values.getD (⌊(j:ℚ) * st⌋.toNat) 0
      ≤ values.getD (Nat.min (⌊(j:ℚ) * st⌋.toNat + 1) (values.length - 1)) 0 := by
    apply sorted_getD_mono values hs _ _ _
      (lt_of_le_of_lt (Nat.min_le_right _ _) hn1)
    exact Nat.le_min.2 ⟨Nat.le_succ _, hFj_le⟩
  set A := values.getD (⌊(i:ℚ) * st⌋.toNat) 0 with hA
  set B := values.getD (Nat.min (⌊(i:ℚ) * st⌋.toNat + 1) (values.length - 1)) 0 with hB
  set A2 := values.getD (⌊(j:ℚ) * st⌋.toNat) 0 with hA2
  set B2 := values.getD (Nat.min (⌊(j:ℚ) * st⌋.toNat + 1) (values.length - 1)) 0 with hB2
  set fi : ℚ := (i:ℚ) * st - ((⌊(i:ℚ) * st⌋.toNat : ℚ)) with hfi
  set fj : ℚ := (j:ℚ) * st - ((⌊(j:ℚ) * st⌋.toNat : ℚ)) with hfj
  rcases eq_or_lt_of_le (show ⌊(i:ℚ) * st⌋.toNat ≤ ⌊(j:ℚ) * st⌋.toNat by omega)
    with hEq | hLt
  · have hAeq : A2 = A := by rw [hA2, hA, hEq]
    have hBeq : B2 = B := by rw [hB2, hB, hEq]
    have hfr : fi ≤ fj := by
      rw [hfi, hfj, hEq]
      linarith
    rw [hAeq, hBeq]
    have key : (A * (1 - fj) + B * fj) - (A * (1 - fi) + B * fi) = (fj - fi) * (B - A) := by
      ring
    have hp : (0:ℚ) ≤ (fj - fi) * (B - A) :=
      mul_nonneg (by linarith) (sub_nonneg.2 hgFiCi)
    linarith
  · have hCi_le_Fj : Nat.min (⌊(i:ℚ) * st⌋.toNat + 1) (values.length - 1)
        ≤ ⌊(j:ℚ) * st⌋.toNat :=
      le_trans (Nat.min_le_left _ _) (Nat.succ_le_of_lt hLt)
    have hgCiFj : B ≤ A2 := by
      rw [hB, hA2]
      exact sorted_getD_mono values hs _ _ hCi_le_Fj (by omega)
    have h1 : A * (1 - fi) + B * fi ≤ B := by
      have key : B - (A * (1 - fi) + B * fi) = (1 - fi) * (B - A) := by ring
      have hp : (0:ℚ) ≤ (1 - fi) * (B - A) :=
        mul_nonneg (by linarith) (sub_nonneg.2 hgFiCi)
      linarith
    have h2 : A2 ≤ A2 * (1 - fj) + B2 * fj := by
      have key : (A2 * (1 - fj) + B2 * fj) - A2 = fj * (B2 - A2) := by ring
      have hp : (0:ℚ) ≤ fj * (B2 - A2) := mul_nonneg hfr_j0 (sub_nonneg.2 hgFjCj)
      linarith
    linarith

theorem resampleToWavetableSize_sorted (values : List ℚ) (t : Nat)
    (hs : List.Sorted (· ≤ ·) values) :
    List.Sorted (· ≤ ·) (resampleToWavetableSize values t) := by
  unfold resampleToWavetableSize
  split_ifs with h1 h2
  · exact List.pairwise_replicate.2 (Or.inr (le_refl 0))
  · exact hs
  · rw [List.Sorted, List.pairwise_map]
    refine List.Pairwise.imp_of_mem ?_ (List.pairwise_lt_range t)
    intro a b ha hb hab
    exact sampleAt_mono values t a b hs h1 hab (List.mem_range.1 hb)

/-- Claim C10: resampling preserves endpoints and monotonicity: the 3-point
sequence `[-1, 0, 1]` resampled to 5 points starts at -1 and ends at 1, and
for every non-decreasing source sequence the output of
`resampleToWavetableSize` is non-decreasing, for every target size. -/
theorem claim_C10_resample_endpoints_monotone :
    ((resampleToWavetableSize [-1, 0, 1] 5).head? = some (-1)
      ∧ (resampleToWavetableSize [-1, 0, 1] 5).getLast? = some 1)
    ∧ ∀ (values : List ℚ) (t : Nat),
        List.Sorted (· ≤ ·) values →
          List.Sorted (· ≤ ·) (resampleToWavetableSize values t) := by
  refine ⟨⟨?_, ?_⟩, fun values t hs => resampleToWavetableSize_sorted values t hs⟩
  · norm_num [resampleToWavetableSize, sampleAt,
      show List.range 5 = [0, 1, 2, 3, 4] from rfl]
  · norm_num [resampleToWavetableSize, sampleAt,
      show List.range 5 = [0, 1, 2, 3, 4] from rfl,
      show Int.toNat 2 = 2 from rfl]

theorem claim_C10_witness :
    List.Sorted (· ≤ ·) (resampleToWavetableSize [-1, 0, 1] 5) :=
  claim_C10_resample_endpoints_monotone.2 [-1, 0, 1] 5 (by norm_num)

/-- Claim C1: the end-to-end scenario: parsing the 2-line CSV whose header is
`Device Timestamp,Historic Glucose mg/dL` and whose data row is
`01-06-2024 10:00,120` yields a dataset with exactly one day, keyed
"2024-06-01", holding exactly one reading of value 120, stats
min = max = avg = 120 and timeInRange = 100; `generateWavetable` on that day
returns the 2048-sample all-zero wavetable. -/
theorem claim_C1_end_to_end :
    (parseLibreViewCSV c1Input).days.map Prod.fst = ["2024-06-01"]
    ∧ daysGet (parseLibreViewCSV c1Input) "2024-06-01" = some c1Day
    ∧ c1Day.readings.map (fun r => r.value) = [120]
    ∧ c1Day.stats = ⟨120, 120, 120, 100⟩
    ∧ generateWavetable c1Day = List.replicate 2048 0 := by
  refine ⟨?_, ?_, rfl, rfl, ?_⟩
  · simp +decide [parseLibreViewCSV, parseWithHeader, trimChars, splitLines, splitLinesAux,
      findHeaderIndex, isHeaderLine, containsSub, isPrefixList, lowerOf, jsToLower, strLower,
      parseCSVLine, parseCSVLineAux, mkRow, setKey, strTrim, detectUnit, rowGet, hasKey,
      truthyGet, rowKeys, findGlucoseColumn, findTimestampColumn, jsParseFloat, parseDigitsNat,
      parseIntDigits, isDigitC, jsSpaceC, isSepC, takeExactDigits, tryLens, tryDigits,
      matchSepThen, matchSpacesThen, matchOptSeconds, matchTsAt, findTsMatch,
      parseTimestampFields, parseTimestamp, mkJsDate, daysFromCivil, civilFromDays,
      rowToReading, extractReadings, parseGlucoseReadings, pushReading, groupReadingsByDay,
      calculateDayStats, listMin, listMax, formatDateKey, timeLE, c1Input,
      List.dropWhile_cons, List.takeWhile_cons, List.foldl_cons,
      List.insertionSort, List.orderedInsert]
  · simp +decide [parseLibreViewCSV, parseWithHeader, daysGet, trimChars, splitLines,
      splitLinesAux, findHeaderIndex, isHeaderLine, containsSub, isPrefixList, lowerOf,
      jsToLower, strLower, parseCSVLine, parseCSVLineAux, mkRow, setKey, strTrim, detectUnit,
      rowGet, hasKey, truthyGet, rowKeys, findGlucoseColumn, findTimestampColumn, jsParseFloat,
      parseDigitsNat, parseIntDigits, isDigitC, jsSpaceC, isSepC, takeExactDigits, tryLens,
      tryDigits, matchSepThen, matchSpacesThen, matchOptSeconds, matchTsAt, findTsMatch,
      parseTimestampFields, parseTimestamp, mkJsDate, daysFromCivil, civilFromDays,
      rowToReading, extractReadings, parseGlucoseReadings, pushReading, groupReadingsByDay,
      calculateDayStats, listMin, listMax, formatDateKey, timeLE, c1Input, c1Day,
      List.dropWhile_cons, List.takeWhile_cons, List.foldl_cons,
      List.insertionSort, List.orderedInsert]
  · exact generateWavetable_const c1Day 120 (by decide)
